import Mathlib

/-!
Shallow embedding of the publishing pipeline of the blog repository:
a content indexer (frontmatter parsing, validation, alias resolution,
taxonomy building, ordering) and a style extractor (glob-driven token
scanning, theme resolution, stylesheet emission), together with the data
actually present in the repository (the frontmatter of the posts and the
style configuration of tailwind.config.js).
-/

namespace Blog

/-- Calendar date as stored in a document frontmatter `date` key. -/
structure Date where
  year : Nat
  month : Nat
  day : Nat
deriving DecidableEq

/-- Strict chronological order on dates: by year, then month, then day. -/
def dateLt (a b : Date) : Bool :=
  Nat.blt a.year b.year ||
    (a.year == b.year && (Nat.blt a.month b.month ||
      (a.month == b.month && Nat.blt a.day b.day)))

/-- Propositional form of `dateLt`. -/
def DateBefore (a b : Date) : Prop :=
  a.year < b.year ∨
    (a.year = b.year ∧ (a.month < b.month ∨ (a.month = b.month ∧ a.day < b.day)))

/-- Lexicographic order on lists of characters, by Unicode code point. -/
def charListLe : List Char → List Char → Bool
  | [], _ => true
  | _ :: _, [] => false
  | a :: as, b :: bs => if a == b then charListLe as bs else Nat.blt a.toNat b.toNat

/-- Lexicographic order on strings; used for slug tie-breaking and tag ordering. -/
def strLe (a b : String) : Bool :=
  charListLe a.toList b.toList

/-- Propositional form of `strLe`. -/
def StrLe (a b : String) : Prop := strLe a b = true

instance : DecidableRel StrLe := fun a b => by
  unfold StrLe
  infer_instance

/-- Value carried by one frontmatter key: a string, a calendar date, a list of
strings (tags, aliases), or a boolean (draft). -/
inductive FMVal where
  | str (s : String)
  | date (d : Date)
  | list (xs : List String)
  | bool (b : Bool)
deriving DecidableEq

/-- Structured metadata block prefacing a document body: key-value pairs. -/
def Frontmatter : Type := List (String × FMVal)

instance : DecidableEq Frontmatter := by
  unfold Frontmatter
  infer_instance

/-- First value bound to a key in a frontmatter block, if any. -/
def fmGet : Frontmatter → String → Option FMVal
  | [], _ => none
  | (k, v) :: rest, key => if k = key then some v else fmGet rest key

/-- Modelled from the spec: one authored article as produced by the content
indexer of the external static-site generator (missing from src, which holds
only the authored content the indexer consumes). -/
structure Document where
  slug : String
  title : String
  description : String
  date : Date
  tags : List String
  aliases : List String
  draft : Bool
  body : String
deriving DecidableEq

/-- Ordering on published documents: date descending, ties broken by slug
ascending. -/
def docLe (a b : Document) : Bool :=
  dateLt b.date a.date || (a.date == b.date && strLe a.slug b.slug)

/-- Propositional form of `docLe`: document `a` is listed no later than `b`. -/
def DocBefore (a b : Document) : Prop := docLe a b = true

instance : DecidableRel DocBefore := fun a b => by
  unfold DocBefore
  infer_instance

/-- One discovered content file: its path, its parsed metadata block and its
raw markup body. -/
structure RawFile where
  path : String
  fm : Frontmatter
  body : String
deriving DecidableEq

/-- Per-document diagnostic: a required field is missing, or a field holds a
value of the wrong shape. -/
inductive DocError where
  | missingField (field : String)
  | malformedField (field : String)
deriving DecidableEq

/-- The frontmatter keys every document must provide. -/
def requiredFields : List String := ["title", "description", "date"]

/-- Modelled from the spec: check of one required string-valued key (the
validating parser is part of the external generator, missing from src). -/
def checkStrField (fm : Frontmatter) (k : String) : List DocError :=
  match fmGet fm k with
  | none => [.missingField k]
  | some (.str _) => []
  | some _ => [.malformedField k]

/-- Modelled from the spec: check of the required `date` key. -/
def checkDateField (fm : Frontmatter) (k : String) : List DocError :=
  match fmGet fm k with
  | none => [.missingField k]
  | some (.date _) => []
  | some _ => [.malformedField k]

/-- Modelled from the spec: check of an optional list-of-strings key. -/
def checkOptListField (fm : Frontmatter) (k : String) : List DocError :=
  match fmGet fm k with
  | none => []
  | some (.list _) => []
  | some _ => [.malformedField k]

/-- Modelled from the spec: check of the optional boolean `draft` key. -/
def checkOptBoolField (fm : Frontmatter) (k : String) : List DocError :=
  match fmGet fm k with
  | none => []
  | some (.bool _) => []
  | some _ => [.malformedField k]

/-- Modelled from the spec: structural validation of one frontmatter block.
Required keys `title`, `description`, `date`; optional `tags`, `aliases`,
`draft`. An empty result means the document is structurally valid. -/
def validateFM (fm : Frontmatter) : List DocError :=
  checkStrField fm "title" ++ checkStrField fm "description" ++
    checkDateField fm "date" ++ checkOptListField fm "tags" ++
    checkOptListField fm "aliases" ++ checkOptBoolField fm "draft"

/-- Split a character list at every separator character, accumulating the
current segment in reverse. -/
def splitChars (sep : Char → Bool) : List Char → List Char → List String
  | [], acc => [String.mk acc.reverse]
  | c :: cs, acc =>
    if sep c then String.mk acc.reverse :: splitChars sep cs []
    else splitChars sep cs (c :: acc)

/-- Split a string on a separator character. -/
def splitOnChar (sep : Char) (s : String) : List String :=
  splitChars (fun c => c == sep) s.toList []

/-- Modelled from the spec: slug derivation from a document path (performed by
the external generator, missing from src): the file base name without its
extension. -/
def slugOf (path : String) : String :=
  ((splitOnChar '.' ((splitOnChar '/' path).getLastD "")).headD "")

/-- Modelled from the spec: the document built from one content file, with
neutral defaults for fields that validation would reject anyway. -/
def docOf (f : RawFile) : Document where
  slug := slugOf f.path
  title := match fmGet f.fm "title" with
    | some (.str s) => s
    | _ => ""
  description := match fmGet f.fm "description" with
    | some (.str s) => s
    | _ => ""
  date := match fmGet f.fm "date" with
    | some (.date d) => d
    | _ => ⟨0, 0, 0⟩
  tags := match fmGet f.fm "tags" with
    | some (.list xs) => xs
    | _ => []
  aliases := match fmGet f.fm "aliases" with
    | some (.list xs) => xs
    | _ => []
  draft := match fmGet f.fm "draft" with
    | some (.bool b) => b
    | _ => false
  body := f.body

/-- Fatal conflict: two files claim the same slug, or two slugs claim the
same alias string. -/
inductive ConflictError where
  | dupSlug (slug : String)
  | dupAlias (sharedAlias : String) (slug1 slug2 : String)
deriving DecidableEq

/-- Terminal failure of a `load` run: either the aggregated per-document
validation report, or a fatal conflict. -/
inductive LoadError where
  | validation (report : List (String × List DocError))
  | conflict (e : ConflictError)
deriving DecidableEq

/-- In-memory index produced by a successful `load` run: the default ordered
listing, the taxonomy map and the alias redirect table. -/
structure Index where
  listing : List Document
  taxonomy : List (String × List Document)
  aliasTable : List (String × String)
deriving DecidableEq

/-- Validation status of every discovered file, in discovery order. -/
def validationReport (files : List RawFile) : List (String × List DocError) :=
  files.map (fun f => (f.path, validateFM f.fm))

/-- First element of a list that occurs again later in the list. -/
def findDup : List String → Option String
  | [] => none
  | x :: xs => if x ∈ xs then some x else findDup xs

/-- First alias of `d` also claimed by a later document, together with both
slugs. -/
def findSharedAlias (d : Document) : List Document → Option (String × String × String)
  | [] => none
  | d₂ :: rest =>
    match d.aliases.find? (fun a => decide (a ∈ d₂.aliases)) with
    | some a => some (a, d.slug, d₂.slug)
    | none => findSharedAlias d rest

/-- First alias claimed by two documents at distinct positions of the list,
together with both owning slugs. -/
def findAliasConflict : List Document → Option (String × String × String)
  | [] => none
  | d :: rest =>
    match findSharedAlias d rest with
    | some c => some c
    | none => findAliasConflict rest

/-- Modelled from the spec: tags are case-normalized before grouping. -/
def normalizeTag (t : String) : String := t.toLower

/-- Normalized tag set of one document. -/
def docTags (d : Document) : List String := d.tags.map normalizeTag

/-- Modelled from the spec: the published document collection, with drafts
dropped and the rest sorted by date descending, ties broken by slug
ascending. -/
def publishedDocs (docs : List Document) : List Document :=
  List.insertionSort DocBefore (docs.filter (fun d => !d.draft))

/-- Modelled from the spec: the sorted, deduplicated list of normalized tags
carried by the published documents. -/
def tagList (docs : List Document) : List String :=
  (List.insertionSort StrLe ((docs.filter (fun d => !d.draft)).flatMap docTags)).dedup

/-- Modelled from the spec: index built from the parsed documents of a fully
valid, conflict-free run. Drafts are dropped, the listing is sorted by date
descending with slug-ascending tie-break, each taxonomy entry is the listing
restricted to one normalized tag, and the alias table maps each alias of a
listed document to its slug. -/
def buildIndex (docs : List Document) : Index where
  listing := publishedDocs docs
  taxonomy := (tagList docs).map
    (fun t => (t, (publishedDocs docs).filter (fun d => decide (t ∈ docTags d))))
  aliasTable := (publishedDocs docs).flatMap
    (fun d => d.aliases.map (fun a => (a, d.slug)))

/-- The aggregated per-document error report of a run: the validation report
restricted to the offending files. -/
def offendingFiles (files : List RawFile) : List (String × List DocError) :=
  (validationReport files).filter (fun p => !p.2.isEmpty)

/-- Modelled from the spec: the content indexer entry point (implemented by
the external static-site generator, missing from src). Every file is validated
independently; all validation errors are aggregated into one terminal report;
then alias conflicts and duplicate slugs abort the run; otherwise the index is
built. -/
def load (files : List RawFile) : Except LoadError Index :=
  if (offendingFiles files).isEmpty then
    match findAliasConflict (files.map docOf) with
    | some (a, s₁, s₂) => .error (.conflict (.dupAlias a s₁ s₂))
    | none =>
      match findDup ((files.map docOf).map (fun d => d.slug)) with
      | some s => .error (.conflict (.dupSlug s))
      | none => .ok (buildIndex (files.map docOf))
  else .error (.validation (offendingFiles files))

/-- Match one glob path segment against one path segment: literal characters
must coincide and `*` matches any (possibly empty) run of characters. -/
def segMatch : List Char → List Char → Bool
  | [], cs => cs.isEmpty
  | p :: ps, cs =>
    if p == '*' then cs.tails.any (fun suf => segMatch ps suf)
    else
      match cs with
      | [] => false
      | c :: cs₂ => p == c && segMatch ps cs₂

/-- Match a glob pattern, split into path segments, against a path split into
segments: a literal segment matches via `segMatch` and `**` matches any
(possibly empty) run of whole segments. -/
def globSegs : List String → List String → Bool
  | [], cs => cs.isEmpty
  | p :: ps, cs =>
    if p = "**" then cs.tails.any (fun suf => globSegs ps suf)
    else
      match cs with
      | [] => false
      | c :: cs₂ => segMatch p.toList c.toList && globSegs ps cs₂

/-- Drop a leading `./` from a glob pattern. -/
def stripDotSlash (p : String) : String :=
  match p.toList with
  | '.' :: '/' :: rest => String.mk rest
  | _ => p

/-- Modelled from the spec: glob matching of one configured content pattern
against a scanned file path (performed by the external style generator,
missing from src). -/
def globMatch (pat path : String) : Bool :=
  globSegs (splitOnChar '/' (stripDotSlash pat)) (splitOnChar '/' path)

/-- One source file offered to the style extractor. -/
structure SourceFile where
  path : String
  content : String
deriving DecidableEq

/-- Modelled from the spec: utility-class token extraction from one source
text, taken as its maximal whitespace-free runs. -/
def tokensOf (content : String) : List String :=
  (splitChars (fun c => c.isWhitespace) content.toList []).filter
    (fun s => !s.toList.isEmpty)

/-- Modelled from the spec: `scan` collects the utility-class tokens of every
file matched by the configured globs, deduplicated and order-independent
(the result is sorted before deduplication). -/
def scan (files : List SourceFile) (globs : List String) : List String :=
  (List.insertionSort StrLe
    ((files.filter (fun f => globs.any (fun g => globMatch g f.path))).flatMap
      (fun f => tokensOf f.content))).dedup

/-- Theme configuration: the recognized top-level keys of the style
configuration file. -/
structure ThemeConfig where
  content : List String
  fontFamily : List (String × List String)
  typographyOverrides : List (String × List (String × String))
  plugins : List String
deriving DecidableEq

/-- Modelled from the spec: the documented subset of element selectors a
typography override may target, including the inline-code start and end
pseudo-markers. -/
def recognizedSelectors : List String :=
  ["p", "a", "blockquote", "code", "code::before", "code::after", "pre",
   "h1", "h2", "h3", "h4", "strong", "em", "ul", "ol", "li", "img",
   "figure", "figcaption", "table", "thead", "tbody", "tr", "th", "td", "hr"]

/-- Fatal theme-configuration failure naming the offending key. -/
inductive ConfigError where
  | unknownSelector (key : String)
deriving DecidableEq

/-- Resolved style rules: named font families and the validated typography
overrides. -/
structure StyleRules where
  fonts : List (String × List String)
  overrides : List (String × List (String × String))
deriving DecidableEq

/-- Modelled from the spec: `resolveTheme` accepts a configuration only when
every typography-override key is a recognized selector, and otherwise fails
with a `ConfigError` naming the first offending key (the resolver is part of
the external style generator, missing from src). -/
def resolveTheme (cfg : ThemeConfig) : Except ConfigError StyleRules :=
  match cfg.typographyOverrides.find? (fun kv => !(decide (kv.1 ∈ recognizedSelectors))) with
  | some kv => .error (.unknownSelector kv.1)
  | none => .ok { fonts := cfg.fontFamily, overrides := cfg.typographyOverrides }

/-- Render one CSS declaration. -/
def renderDecl (d : String × String) : String :=
  d.1 ++ ": " ++ d.2 ++ ";"

/-- Render one override rule. -/
def renderRule (r : String × List (String × String)) : String :=
  r.1 ++ " \x7b " ++ String.intercalate " " (r.2.map renderDecl) ++ " \x7d"

/-- Modelled from the spec: `emit` renders the resolved rules followed by one
placeholder rule per scanned token; it is a pure function of its two
arguments (the real emitter is the external style generator, missing from
src). -/
def emit (tokens : List String) (rules : StyleRules) : String :=
  String.intercalate "\n"
    ((rules.fonts.map (fun f => "--font-" ++ f.1 ++ ": " ++ String.intercalate ", " f.2 ++ ";"))
      ++ rules.overrides.map renderRule
      ++ tokens.map (fun t => "." ++ t ++ " \x7b \x7d"))

/-- The configured content globs of src/tailwind.config.js. -/
def contentGlobs : List String :=
  ["./templates/**/*.html", "./content/**/*.md", "./static/icons/**/*.svg"]

/-- Fallback list standing for tailwindcss defaultTheme.fontFamily.sans, as
required at the top of src/tailwind.config.js. -/
def defaultSansFallback : List String :=
  ["ui-sans-serif", "system-ui", "sans-serif", "\"Apple Color Emoji\"",
   "\"Segoe UI Emoji\"", "\"Segoe UI Symbol\"", "\"Noto Color Emoji\""]

/-- The theme configuration embedded from src/tailwind.config.js: the content
globs, the extended font families, the typography overrides of the DEFAULT
css block, and the plugin list. -/
def siteConfig : ThemeConfig where
  content := contentGlobs
  fontFamily :=
    [("sans", "\"IBM Plex Sans\"" :: defaultSansFallback),
     ("cursive", ["Charm", "cursive"])]
  typographyOverrides :=
    [("code",
      [("backgroundColor", "#f5f5f5"), ("padding", "0.2em 0.4em"),
       ("borderRadius", "0.25em"), ("color", "#333"), ("fontWeight", "normal")]),
     ("code::before", [("content", "\"\"")]),
     ("code::after", [("content", "\"\"")])]
  plugins := ["@tailwindcss/typography"]

/-- The CSS string literal denoting the empty string, as written for the
content declaration of the inline-code pseudo-markers in
src/tailwind.config.js. -/
def cssEmptyString : String := "\"\""

/-- Frontmatter embedded from src/_posts/2015-11-30-screen-terminal-multiplexer.md:
keys layout, title and date only, with no description. -/
def screenPostFM : Frontmatter :=
  [("layout", .str "post"),
   ("title", .str "Learn to use screen, a terminal multiplexer"),
   ("date", .date ⟨2015, 12, 4⟩)]

/-- Frontmatter embedded from src/unnamed/part_001 (Shell Scripts Matter):
the one document of the corpus carrying an alias. -/
def shellScriptsFM : Frontmatter :=
  [("title", .str "Shell Scripts Matter"),
   ("description", .str "Learn how to follow good development practices, even with Bash!"),
   ("date", .date ⟨2017, 12, 3⟩),
   ("aliases", .list ["2017/12/03/shell-scripts-matter.html"])]

/-- Two documents share no alias string. -/
def NoShare (d₁ d₂ : Document) : Prop :=
  ∀ a, a ∈ d₁.aliases → a ∉ d₂.aliases

/-- The screen post of src/_posts as a discovered file. -/
def rawScreenPost : RawFile :=
  ⟨"_posts/2015-11-30-screen-terminal-multiplexer.md", screenPostFM, ""⟩

/-- The shell-scripts post as a discovered file. -/
def rawShellScripts : RawFile :=
  ⟨"content/blog/shell-scripts-matter.md", shellScriptsFM, ""⟩

/-- Concrete valid file dated 2024-01-01 with slug `a`. -/
def exampleFileA : RawFile :=
  ⟨"a.md", [("title", .str "A"), ("description", .str "da"),
    ("date", .date ⟨2024, 1, 1⟩)], ""⟩

/-- Concrete valid file dated 2024-06-01 with slug `b`. -/
def exampleFileB : RawFile :=
  ⟨"b.md", [("title", .str "B"), ("description", .str "db"),
    ("date", .date ⟨2024, 6, 1⟩)], ""⟩

/-- Concrete valid file dated 2023-12-31 with slug `c`. -/
def exampleFileC : RawFile :=
  ⟨"c.md", [("title", .str "C"), ("description", .str "dc"),
    ("date", .date ⟨2023, 12, 31⟩)], ""⟩

/-- The ordering example of the spec: three dated documents. -/
def orderingFiles : List RawFile := [exampleFileA, exampleFileB, exampleFileC]

/-- The index produced for the ordering example. -/
def orderingIndex : Index := buildIndex (orderingFiles.map docOf)

/-- Concrete file claiming the legacy alias `old/path.html`. -/
def aliasFileX : RawFile :=
  ⟨"x.md", [("title", .str "X"), ("description", .str "dx"),
    ("date", .date ⟨2020, 1, 1⟩), ("aliases", .list ["old/path.html"])], ""⟩

/-- Second concrete file claiming the same legacy alias `old/path.html`. -/
def aliasFileY : RawFile :=
  ⟨"y.md", [("title", .str "Y"), ("description", .str "dy"),
    ("date", .date ⟨2021, 2, 2⟩), ("aliases", .list ["old/path.html"])], ""⟩

/-- Document set with an ambiguous redirect. -/
def conflictFiles : List RawFile := [aliasFileX, aliasFileY]

/-- Document set mixing one valid and one invalid file. -/
def mixedFiles : List RawFile := [rawShellScripts, rawScreenPost]

/-- Concrete draft document, structurally valid. -/
def draftFile : RawFile :=
  ⟨"drafty.md", [("title", .str "Draft"), ("description", .str "dd"),
    ("date", .date ⟨2024, 2, 2⟩), ("draft", .bool true),
    ("tags", .list ["Go"])], ""⟩

/-- Concrete published document carrying a tag. -/
def publishedFile : RawFile :=
  ⟨"pub.md", [("title", .str "Pub"), ("description", .str "dp"),
    ("date", .date ⟨2024, 3, 3⟩), ("tags", .list ["Go"])], ""⟩

/-- Document set mixing a draft and a published document. -/
def draftMixFiles : List RawFile := [draftFile, publishedFile]

/-- The index produced for the draft example. -/
def draftMixIndex : Index := buildIndex (draftMixFiles.map docOf)

/-- Concrete draft document missing the required description. -/
def badDraftFile : RawFile :=
  ⟨"bad-draft.md", [("title", .str "Bad"), ("date", .date ⟨2024, 4, 4⟩),
    ("draft", .bool true)], ""⟩

/-- Theme configuration with the unrecognized selector key `h7`. -/
def h7Config : ThemeConfig :=
  ⟨[], [], [("h7", [("color", "#000")])], []⟩

/-- Concrete scanned source file under content. -/
def srcFileA : SourceFile := ⟨"content/a.md", "text-lg font-bold"⟩

/-- Concrete scanned source file under templates. -/
def srcFileB : SourceFile := ⟨"templates/t.html", "text-lg mx-auto"⟩

/-- Concrete source file living under the unscanned directory of legacy posts. -/
def postsOnlyFile : SourceFile :=
  ⟨"_posts/2015-11-30-screen-terminal-multiplexer.md", "screen multiplexer prose"⟩

/-- Concrete valid file with slug `p`. -/
def permFileP : RawFile :=
  ⟨"p.md", [("title", .str "P"), ("description", .str "dp"),
    ("date", .date ⟨2022, 5, 5⟩)], ""⟩

/-- Concrete valid file with slug `q`. -/
def permFileQ : RawFile :=
  ⟨"q.md", [("title", .str "Q"), ("description", .str "dq"),
    ("date", .date ⟨2022, 6, 6⟩)], ""⟩

theorem dateLt_iff (a b : Date) : dateLt a b = true ↔ DateBefore a b := by
  simp [dateLt, DateBefore, Nat.blt_eq]

theorem dateBefore_trichotomy (a b : Date) :
    DateBefore a b ∨ DateBefore b a ∨ a = b := by
  rcases a with ⟨ya, ma, da⟩
  rcases b with ⟨yb, mb, db⟩
  simp only [DateBefore, Date.mk.injEq]
  omega

theorem dateBefore_asymm {a b : Date} (h₁ : DateBefore a b) (h₂ : DateBefore b a) : False := by
  rcases a with ⟨ya, ma, da⟩
  rcases b with ⟨yb, mb, db⟩
  simp only [DateBefore] at h₁ h₂
  omega

theorem dateBefore_trans {a b c : Date}
    (h₁ : DateBefore a b) (h₂ : DateBefore b c) : DateBefore a c := by
  rcases a with ⟨ya, ma, da⟩
  rcases b with ⟨yb, mb, db⟩
  rcases c with ⟨yc, mc, dc⟩
  simp only [DateBefore] at h₁ h₂ ⊢
  omega

theorem charListLe_total : ∀ a b : List Char, charListLe a b = true ∨ charListLe b a = true
  | [], _ => Or.inl rfl
  | _ :: _, [] => Or.inr rfl
  | a :: as, b :: bs => by
    by_cases hab : a = b
    · subst hab
      simpa [charListLe] using charListLe_total as bs
    · have hba : ¬b = a := fun h => hab h.symm
      have htn : a.toNat ≠ b.toNat := fun h => hab (Char.eq_of_val_eq (by
        have hv : a.val.toNat = b.val.toNat := h
        exact UInt32.ext hv))
      simp only [charListLe, beq_iff_eq, hab, hba, if_false]
      rcases Nat.lt_or_ge a.toNat b.toNat with h | h
      · exact Or.inl (by simpa [Nat.blt_eq] using h)
      · exact Or.inr (by simpa [Nat.blt_eq] using lt_of_le_of_ne h (fun e => htn e.symm))

theorem charListLe_trans :
    ∀ {a b c : List Char}, charListLe a b = true → charListLe b c = true →
      charListLe a c = true
  | [], _, _, _, _ => rfl
  | _ :: _, [], _, h₁, _ => by simp [charListLe] at h₁
  | _ :: _, _ :: _, [], _, h₂ => by simp [charListLe] at h₂
  | a :: as, b :: bs, c :: cs, h₁, h₂ => by
    by_cases hab : a = b <;> by_cases hbc : b = c
    · subst hab; subst hbc
      simp only [charListLe, beq_self_eq_true, if_true] at h₁ h₂ ⊢
      exact charListLe_trans h₁ h₂
    · subst hab
      simpa [charListLe, hbc] using h₂
    · subst hbc
      simpa [charListLe, hab] using h₁
    · simp only [charListLe, beq_iff_eq, hab, hbc, if_false, Nat.blt_eq] at h₁ h₂
      by_cases hac : a = c
      · exact absurd (hac ▸ Nat.lt_trans h₁ h₂) (lt_irrefl _)
      · simp only [charListLe, beq_iff_eq, hac, if_false, Nat.blt_eq]
        exact Nat.lt_trans h₁ h₂

theorem charListLe_antisymm :
    ∀ {a b : List Char}, charListLe a b = true → charListLe b a = true → a = b
  | [], [], _, _ => rfl
  | [], _ :: _, _, h₂ => by simp [charListLe] at h₂
  | _ :: _, [], h₁, _ => by simp [charListLe] at h₁
  | a :: as, b :: bs, h₁, h₂ => by
    by_cases hab : a = b
    · subst hab
      simp only [charListLe, beq_self_eq_true, if_true] at h₁ h₂
      exact congrArg _ (charListLe_antisymm h₁ h₂)
    · have hba : ¬b = a := fun h => hab h.symm
      simp only [charListLe, beq_iff_eq, hab, hba, if_false, Nat.blt_eq] at h₁ h₂
      exact absurd (Nat.lt_trans h₁ h₂) (lt_irrefl _)

theorem string_toList_inj {a b : String} (h : a.toList = b.toList) : a = b := by
  cases a; cases b
  simp only [String.toList] at h
  exact congrArg String.mk h

theorem strLe_total : ∀ a b : String, StrLe a b ∨ StrLe b a :=
  fun a b => charListLe_total a.toList b.toList

theorem strLe_trans : ∀ {a b c : String}, StrLe a b → StrLe b c → StrLe a c :=
  fun h₁ h₂ => charListLe_trans h₁ h₂

theorem strLe_antisymm : ∀ {a b : String}, StrLe a b → StrLe b a → a = b :=
  fun h₁ h₂ => string_toList_inj (charListLe_antisymm h₁ h₂)

theorem docBefore_iff (a b : Document) :
    DocBefore a b ↔ DateBefore b.date a.date ∨ (a.date = b.date ∧ StrLe a.slug b.slug) := by
  simp only [DocBefore, docLe, Bool.or_eq_true, Bool.and_eq_true, beq_iff_eq,
    dateLt_iff, StrLe]

theorem docBefore_total : ∀ a b : Document, DocBefore a b ∨ DocBefore b a := by
  intro a b
  rw [docBefore_iff, docBefore_iff]
  rcases dateBefore_trichotomy a.date b.date with h | h | h
  · exact Or.inr (Or.inl h)
  · exact Or.inl (Or.inl h)
  · rcases charListLe_total a.slug.toList b.slug.toList with hs | hs
    · exact Or.inl (Or.inr ⟨h, hs⟩)
    · exact Or.inr (Or.inr ⟨h.symm, hs⟩)

theorem docBefore_trans :
    ∀ {a b c : Document}, DocBefore a b → DocBefore b c → DocBefore a c := by
  intro a b c hab hbc
  rw [docBefore_iff] at hab hbc ⊢
  rcases hab with h₁ | ⟨e₁, s₁⟩
  · rcases hbc with h₂ | ⟨e₂, _⟩
    · exact Or.inl (dateBefore_trans h₂ h₁)
    · exact Or.inl (e₂ ▸ h₁)
  · rcases hbc with h₂ | ⟨e₂, s₂⟩
    · exact Or.inl (e₁ ▸ h₂)
    · exact Or.inr ⟨e₁.trans e₂, charListLe_trans s₁ s₂⟩

theorem docBefore_antisymm {a b : Document}
    (h₁ : DocBefore a b) (h₂ : DocBefore b a) : a.date = b.date ∧ a.slug = b.slug := by
  rw [docBefore_iff] at h₁ h₂
  rcases h₁ with h₁ | ⟨e₁, s₁⟩
  · rcases h₂ with h₂ | ⟨e₂, _⟩
    · exact absurd h₁ (fun h => dateBefore_asymm h h₂)
    · exact absurd h₁ (fun h => dateBefore_asymm (e₂ ▸ h) h)
  · rcases h₂ with h₂ | ⟨_, s₂⟩
    · exact absurd h₂ (fun h => dateBefore_asymm (e₁ ▸ h) h)
    · exact ⟨e₁, string_toList_inj (charListLe_antisymm s₁ s₂)⟩

theorem noShare_symm {d₁ d₂ : Document} (h : NoShare d₁ d₂) : NoShare d₂ d₁ :=
  fun a ha₂ ha₁ => h a ha₁ ha₂

theorem sortedPermEq {α : Type} {r : α → α → Prop} :
    ∀ {l₁ l₂ : List α}, l₁.Perm l₂ → l₁.Sorted r → l₂.Sorted r →
      (∀ a ∈ l₁, ∀ b ∈ l₁, r a b → r b a → a = b) → l₁ = l₂ := by
  intro l₁
  induction l₁ with
  | nil =>
    intro l₂ hp _ _ _
    exact (hp.symm.eq_nil).symm
  | cons a t ih =>
    intro l₂ hp hs₁ hs₂ hanti
    cases l₂ with
    | nil => cases hp.eq_nil
    | cons b t₂ =>
      have hab : a = b := by
        by_contra hne
        have ha₂ : a ∈ b :: t₂ := hp.mem_iff.mp (List.mem_cons_self a t)
        have hb₁ : b ∈ a :: t := hp.symm.mem_iff.mp (List.mem_cons_self b t₂)
        have ha₂' : a ∈ t₂ := by
          rcases List.mem_cons.mp ha₂ with h | h
          · exact absurd h hne
          · exact h
        have hb₁' : b ∈ t := by
          rcases List.mem_cons.mp hb₁ with h | h
          · exact absurd h.symm hne
          · exact h
        have hrab : r a b := List.rel_of_sorted_cons hs₁ b hb₁'
        have hrba : r b a := List.rel_of_sorted_cons hs₂ a ha₂'
        exact hne (hanti a (List.mem_cons_self a t) b (List.mem_cons_of_mem a hb₁') hrab hrba)
      subst hab
      have hpt : t.Perm t₂ := hp.cons_inv
      have ht : t = t₂ := ih hpt hs₁.of_cons hs₂.of_cons
        (fun x hx y hy => hanti x (List.mem_cons_of_mem a hx) y (List.mem_cons_of_mem a hy))
      rw [ht]

theorem findDup_eq_none_iff {l : List String} : findDup l = none ↔ l.Nodup := by
  induction l with
  | nil => simp [findDup]
  | cons x xs ih => by_cases h : x ∈ xs <;> simp [findDup, h, ih]

theorem findSharedAlias_eq_none_iff {d : Document} :
    ∀ {l : List Document}, findSharedAlias d l = none ↔ ∀ d₂ ∈ l, NoShare d d₂ := by
  intro l
  induction l with
  | nil => simp [findSharedAlias]
  | cons d₂ rest ih =>
    cases hf : d.aliases.find? (fun a => decide (a ∈ d₂.aliases)) with
    | some a =>
      have hpa : a ∈ d₂.aliases := by simpa using List.find?_some hf
      have hma : a ∈ d.aliases := List.mem_of_find?_eq_some hf
      simp only [findSharedAlias, hf]
      constructor
      · intro h; cases h
      · intro h
        exact absurd hpa (h d₂ (List.mem_cons_self d₂ rest) a hma)
    | none =>
      have hnone : NoShare d d₂ := by
        intro a ha
        have := List.find?_eq_none.mp hf a ha
        simpa using this
      simp only [findSharedAlias, hf]
      rw [ih]
      constructor
      · intro h x hx
        rcases List.mem_cons.mp hx with rfl | hx'
        · exact hnone
        · exact h x hx'
      · intro h x hx
        exact h x (List.mem_cons_of_mem _ hx)

theorem findSharedAlias_eq_some {d : Document} :
    ∀ {l : List Document} {a s₁ s₂ : String},
      findSharedAlias d l = some (a, s₁, s₂) →
      s₁ = d.slug ∧ a ∈ d.aliases ∧ ∃ d₂ ∈ l, a ∈ d₂.aliases ∧ s₂ = d₂.slug := by
  intro l
  induction l with
  | nil => intro a s₁ s₂ h; cases h
  | cons d₂ rest ih =>
    intro a s₁ s₂ h
    cases hf : d.aliases.find? (fun x => decide (x ∈ d₂.aliases)) with
    | some x =>
      simp only [findSharedAlias, hf, Option.some.injEq] at h
      obtain ⟨rfl, rfl, rfl⟩ := Prod.mk.injEq .. ▸ h
      exact ⟨rfl, List.mem_of_find?_eq_some hf, d₂, List.mem_cons_self d₂ rest,
        by simpa using List.find?_some hf, rfl⟩
    | none =>
      simp only [findSharedAlias, hf] at h
      obtain ⟨e₁, ha, d₃, hd₃, h₂⟩ := ih h
      exact ⟨e₁, ha, d₃, List.mem_cons_of_mem _ hd₃, h₂⟩

theorem findSharedAlias_isSome {d : Document} :
    ∀ {l : List Document} {a : String} {d₂ : Document},
      d₂ ∈ l → a ∈ d.aliases → a ∈ d₂.aliases → (findSharedAlias d l).isSome := by
  intro l
  induction l with
  | nil => intro a d₂ h; cases h
  | cons x rest ih =>
    intro a d₂ hmem ha ha₂
    cases hf : d.aliases.find? (fun y => decide (y ∈ x.aliases)) with
    | some y => simp [findSharedAlias, hf]
    | none =>
      rcases List.mem_cons.mp hmem with rfl | hmem'
      · exact absurd (by simpa using List.find?_eq_none.mp hf a ha) (by simpa using ha₂)
      · simpa [findSharedAlias, hf] using ih hmem' ha ha₂

theorem findAliasConflict_eq_none_iff :
    ∀ {l : List Document}, findAliasConflict l = none ↔ l.Pairwise NoShare := by
  intro l
  induction l with
  | nil => simp [findAliasConflict]
  | cons d rest ih =>
    cases hs : findSharedAlias d rest with
    | some c =>
      obtain ⟨a, s₁, s₂⟩ := c
      obtain ⟨_, ha, d₂, hd₂, ha₂, _⟩ := findSharedAlias_eq_some hs
      simp only [findAliasConflict, hs]
      constructor
      · intro h; cases h
      · intro h
        exact absurd ha₂ ((List.pairwise_cons.mp h).1 d₂ hd₂ a ha)
    | none =>
      simp only [findAliasConflict, hs]
      rw [ih, List.pairwise_cons]
      exact ⟨fun h => ⟨findSharedAlias_eq_none_iff.mp hs, h⟩, fun h => h.2⟩

theorem findAliasConflict_eq_some :
    ∀ {l : List Document} {a s₁ s₂ : String},
      findAliasConflict l = some (a, s₁, s₂) →
      ∃ d₁ d₂, [d₁, d₂].Sublist l ∧ s₁ = d₁.slug ∧ s₂ = d₂.slug ∧
        a ∈ d₁.aliases ∧ a ∈ d₂.aliases := by
  intro l
  induction l with
  | nil => intro a s₁ s₂ h; cases h
  | cons d rest ih =>
    intro a s₁ s₂ h
    cases hs : findSharedAlias d rest with
    | some c =>
      simp only [findAliasConflict, hs, Option.some.injEq] at h
      subst h
      obtain ⟨e₁, ha, d₂, hd₂, ha₂, e₂⟩ := findSharedAlias_eq_some hs
      exact ⟨d, d₂, List.Sublist.cons₂ d (List.singleton_sublist.mpr hd₂),
        e₁, e₂, ha, ha₂⟩
    | none =>
      simp only [findAliasConflict, hs] at h
      obtain ⟨d₁, d₂, hsub, e₁, e₂, ha₁, ha₂⟩ := ih h
      exact ⟨d₁, d₂, hsub.cons d, e₁, e₂, ha₁, ha₂⟩

theorem findAliasConflict_isSome {a : String} {d₁ d₂ : Document} :
    ∀ {l : List Document}, [d₁, d₂].Sublist l →
      a ∈ d₁.aliases → a ∈ d₂.aliases → (findAliasConflict l).isSome := by
  intro l
  induction l with
  | nil => intro h; cases h
  | cons x rest ih =>
    intro hsub ha₁ ha₂
    cases hsub with
    | cons _ h =>
      cases hs : findSharedAlias x rest with
      | some c => simp [findAliasConflict, hs]
      | none => simpa [findAliasConflict, hs] using ih h ha₁ ha₂
    | cons₂ _ h =>
      have hd₂ : d₂ ∈ rest := List.singleton_sublist.mp h
      have hsome := findSharedAlias_isSome (d := d₁) hd₂ ha₁ ha₂
      cases hs : findSharedAlias d₁ rest with
      | some c => simp [findAliasConflict, hs]
      | none => rw [hs] at hsome; cases hsome

theorem pair_sublist {α : Type} {a b : α} :
    ∀ {l : List α}, a ∈ l → b ∈ l → a ≠ b →
      [a, b].Sublist l ∨ [b, a].Sublist l := by
  intro l
  induction l with
  | nil => intro h; cases h
  | cons x rest ih =>
    intro ha hb hne
    rcases List.mem_cons.mp ha with rfl | ha'
    · have hb' : b ∈ rest := by
        rcases List.mem_cons.mp hb with h | h
        · exact absurd h.symm hne
        · exact h
      exact Or.inl (List.Sublist.cons₂ _ (List.singleton_sublist.mpr hb'))
    · rcases List.mem_cons.mp hb with rfl | hb'
      · exact Or.inr (List.Sublist.cons₂ _ (List.singleton_sublist.mpr ha'))
      · rcases ih ha' hb' hne with h | h
        · exact Or.inl (h.cons _)
        · exact Or.inr (h.cons _)

theorem offendingFiles_isEmpty_iff {files : List RawFile} :
    (offendingFiles files).isEmpty = true ↔ ∀ f ∈ files, validateFM f.fm = [] := by
  rw [List.isEmpty_iff, offendingFiles, List.filter_eq_nil_iff]
  constructor
  · intro h f hf
    have := h (f.path, validateFM f.fm) (List.mem_map.mpr ⟨f, hf, rfl⟩)
    simpa using this
  · intro h p hp
    obtain ⟨f, hf, rfl⟩ := List.mem_map.mp hp
    simp [h f hf]

theorem load_ok_elim {files : List RawFile} {idx : Index} (h : load files = .ok idx) :
    (∀ f ∈ files, validateFM f.fm = []) ∧
      findAliasConflict (files.map docOf) = none ∧
      findDup ((files.map docOf).map (fun d => d.slug)) = none ∧
      idx = buildIndex (files.map docOf) := by
  unfold load at h
  by_cases he : (offendingFiles files).isEmpty
  · rw [if_pos he] at h
    cases hc : findAliasConflict (files.map docOf) with
    | some c =>
      obtain ⟨a, s₁, s₂⟩ := c
      rw [hc] at h
      cases h
    | none =>
      rw [hc] at h
      cases hd : findDup ((files.map docOf).map (fun d => d.slug)) with
      | some s => rw [hd] at h; cases h
      | none =>
        rw [hd] at h
        injection h with h₄
        exact ⟨offendingFiles_isEmpty_iff.mp he, rfl, rfl, h₄.symm⟩
  · rw [if_neg he] at h
    cases h

theorem publishedDocs_sorted (docs : List Document) :
    (publishedDocs docs).Sorted DocBefore :=
  @List.sorted_insertionSort _ DocBefore _ ⟨docBefore_total⟩
    ⟨fun _ _ _ h₁ h₂ => docBefore_trans h₁ h₂⟩ _

theorem publishedDocs_perm (docs : List Document) :
    (publishedDocs docs).Perm (docs.filter (fun d => !d.draft)) :=
  List.perm_insertionSort DocBefore _

theorem mem_publishedDocs {d : Document} {docs : List Document} :
    d ∈ publishedDocs docs ↔ d ∈ docs ∧ d.draft = false := by
  rw [(publishedDocs_perm docs).mem_iff, List.mem_filter]
  simp

theorem docs_antisymm_on {docs : List Document}
    (hn : (docs.map (fun d => d.slug)).Nodup) :
    ∀ a ∈ docs, ∀ b ∈ docs, DocBefore a b → DocBefore b a → a = b := by
  intro a ha b hb h₁ h₂
  exact List.inj_on_of_nodup_map hn ha hb (docBefore_antisymm h₁ h₂).2

theorem publishedDocs_perm_eq {docs₁ docs₂ : List Document}
    (hp : docs₁.Perm docs₂) (hn : (docs₁.map (fun d => d.slug)).Nodup) :
    publishedDocs docs₁ = publishedDocs docs₂ := by
  refine sortedPermEq ?_ (publishedDocs_sorted docs₁) (publishedDocs_sorted docs₂) ?_
  · exact (publishedDocs_perm docs₁).trans
      ((hp.filter _).trans (publishedDocs_perm docs₂).symm)
  · intro a ha b hb h₁ h₂
    exact docs_antisymm_on hn a (mem_publishedDocs.mp ha).1 b (mem_publishedDocs.mp hb).1 h₁ h₂

theorem sorted_insertionSort_str (l : List String) :
    (List.insertionSort StrLe l).Sorted StrLe :=
  @List.sorted_insertionSort _ StrLe _ ⟨strLe_total⟩
    ⟨fun _ _ _ h₁ h₂ => strLe_trans h₁ h₂⟩ _

theorem insertionSort_str_perm_eq {l₁ l₂ : List String} (hp : l₁.Perm l₂) :
    List.insertionSort StrLe l₁ = List.insertionSort StrLe l₂ := by
  refine sortedPermEq ?_ (sorted_insertionSort_str l₁) (sorted_insertionSort_str l₂) ?_
  · exact (List.perm_insertionSort StrLe l₁).trans
      (hp.trans (List.perm_insertionSort StrLe l₂).symm)
  · intro a _ b _ h₁ h₂
    exact strLe_antisymm h₁ h₂

theorem tagList_perm_eq {docs₁ docs₂ : List Document} (hp : docs₁.Perm docs₂) :
    tagList docs₁ = tagList docs₂ := by
  unfold tagList
  rw [insertionSort_str_perm_eq ((hp.filter _).flatMap_right docTags)]

theorem buildIndex_perm_eq {docs₁ docs₂ : List Document}
    (hp : docs₁.Perm docs₂) (hn : (docs₁.map (fun d => d.slug)).Nodup) :
    buildIndex docs₁ = buildIndex docs₂ := by
  unfold buildIndex
  rw [publishedDocs_perm_eq hp hn, tagList_perm_eq hp]

theorem load_perm {files₁ files₂ : List RawFile} {idx : Index}
    (hp : files₁.Perm files₂) (h : load files₁ = .ok idx) :
    load files₂ = .ok idx := by
  obtain ⟨hval, hal, hdup, hidx⟩ := load_ok_elim h
  have hd : (files₁.map docOf).Perm (files₂.map docOf) := hp.map docOf
  have hval₂ : ∀ f ∈ files₂, validateFM f.fm = [] := fun f hf => hval f (hp.mem_iff.mpr hf)
  have hal₂ : findAliasConflict (files₂.map docOf) = none :=
    findAliasConflict_eq_none_iff.mpr
      ((List.Perm.pairwise_iff (fun h => noShare_symm h) hd).mp
        (findAliasConflict_eq_none_iff.mp hal))
  have hn₁ : ((files₁.map docOf).map (fun d => d.slug)).Nodup := findDup_eq_none_iff.mp hdup
  have hdup₂ : findDup ((files₂.map docOf).map (fun d => d.slug)) = none :=
    findDup_eq_none_iff.mpr (((hd.map (fun d => d.slug)).nodup_iff).mp hn₁)
  have hbuild : buildIndex (files₂.map docOf) = buildIndex (files₁.map docOf) :=
    (buildIndex_perm_eq hd hn₁).symm
  unfold load
  rw [if_pos (offendingFiles_isEmpty_iff.mpr hval₂)]
  simp only [hal₂, hdup₂]
  rw [hbuild, ← hidx]

theorem mem_scan {t : String} {files : List SourceFile} {globs : List String} :
    t ∈ scan files globs ↔
      ∃ f ∈ files, (globs.any (fun g => globMatch g f.path)) = true ∧
        t ∈ tokensOf f.content := by
  rw [scan, List.mem_dedup, (List.perm_insertionSort StrLe _).mem_iff, List.mem_flatMap]
  constructor
  · intro ⟨f, hf, ht⟩
    exact ⟨f, (List.mem_filter.mp hf).1, (List.mem_filter.mp hf).2, ht⟩
  · intro ⟨f, hf, hm, ht⟩
    exact ⟨f, List.mem_filter.mpr ⟨hf, hm⟩, ht⟩

theorem scan_perm_eq {files₁ files₂ : List SourceFile} {globs : List String}
    (hp : files₁.Perm files₂) : scan files₁ globs = scan files₂ globs := by
  unfold scan
  rw [insertionSort_str_perm_eq
    ((hp.filter _).flatMap_right (fun f => tokensOf f.content))]

theorem resolveTheme_isOk_iff {cfg : ThemeConfig} :
    (resolveTheme cfg).isOk = true ↔
      ∀ kv ∈ cfg.typographyOverrides, kv.1 ∈ recognizedSelectors := by
  unfold resolveTheme
  cases hf : cfg.typographyOverrides.find?
      (fun kv => !(decide (kv.1 ∈ recognizedSelectors))) with
  | some kv =>
    have hk : kv.1 ∉ recognizedSelectors := by
      have := List.find?_some hf
      simpa using this
    have hm : kv ∈ cfg.typographyOverrides := List.mem_of_find?_eq_some hf
    simp only [Except.isOk, Except.toBool]
    constructor
    · intro h; cases h
    · intro h
      exact absurd (h kv hm) hk
  | none =>
    simp only [Except.isOk, Except.toBool, true_iff]
    intro kv hm
    have := List.find?_eq_none.mp hf kv hm
    simpa using this

theorem resolveTheme_error {cfg : ThemeConfig} {kv : String × List (String × String)}
    (hm : kv ∈ cfg.typographyOverrides) (hk : kv.1 ∉ recognizedSelectors) :
    ∃ k, resolveTheme cfg = .error (.unknownSelector k) ∧ k ∉ recognizedSelectors ∧
      ∃ decls, (k, decls) ∈ cfg.typographyOverrides := by
  cases hf : cfg.typographyOverrides.find?
      (fun kv => !(decide (kv.1 ∈ recognizedSelectors))) with
  | some kw =>
    refine ⟨kw.1, ?_, ?_, kw.2, ?_⟩
    · unfold resolveTheme
      rw [hf]
    · have := List.find?_some hf
      simpa using this
    · exact List.mem_of_find?_eq_some hf
  | none =>
    exact absurd (by simpa using List.find?_eq_none.mp hf kv hm) (by simpa using hk)

/-- C1: parsing a document frontmatter succeeds only if the required keys
`title`, `description` and `date` are all present; a document missing one of
them yields a validation error identifying the missing field; in particular
the embedded frontmatter of src/_posts/2015-11-30-screen-terminal-multiplexer.md,
whose metadata block carries only `layout`, `title` and `date`, yields
exactly the error naming the missing `description`. -/
theorem claim_C1 :
    (∀ fm : Frontmatter, validateFM fm = [] →
      (fmGet fm "title").isSome ∧ (fmGet fm "description").isSome ∧
        (fmGet fm "date").isSome)
    ∧ (∀ fm : Frontmatter, ∀ k ∈ requiredFields, fmGet fm k = none →
        DocError.missingField k ∈ validateFM fm)
    ∧ validateFM screenPostFM = [.missingField "description"] := by
  refine ⟨?_, ?_, by decide⟩
  · intro fm h
    simp only [validateFM, List.append_eq_nil] at h
    obtain ⟨⟨⟨⟨⟨h₁, h₂⟩, h₃⟩, _⟩, _⟩, _⟩ := h
    refine ⟨?_, ?_, ?_⟩
    · cases hf : fmGet fm "title" with
      | none => simp [checkStrField, hf] at h₁
      | some v => simp [hf]
    · cases hf : fmGet fm "description" with
      | none => simp [checkStrField, hf] at h₂
      | some v => simp [hf]
    · cases hf : fmGet fm "date" with
      | none => simp [checkDateField, hf] at h₃
      | some v => simp [hf]
  · intro fm k hk hnone
    simp only [requiredFields, List.mem_cons, List.mem_singleton,
      List.not_mem_nil, or_false] at hk
    rcases hk with rfl | rfl | rfl
    · simp [validateFM, checkStrField, hnone]
    · simp [validateFM, checkStrField, hnone]
    · simp [validateFM, checkDateField, hnone]

/-- Witness for C1: the shell-scripts frontmatter validates, so its required
keys are present; the screen post is missing `description` and the validator
reports exactly that. -/
theorem claim_C1_witness :
    ((fmGet shellScriptsFM "title").isSome ∧
      (fmGet shellScriptsFM "description").isSome ∧
      (fmGet shellScriptsFM "date").isSome) ∧
    DocError.missingField "description" ∈ validateFM screenPostFM :=
  ⟨claim_C1.1 shellScriptsFM (by decide),
   claim_C1.2.1 screenPostFM "description" (by decide) (by decide)⟩

/-- C2: whenever two distinct parsed documents claim a common alias string,
`load` fails with a ConflictError carrying a shared alias and the slugs of
two documents at distinct positions that both claim it; and in any
successfully built index every alias maps to exactly one slug. -/
theorem claim_C2 :
    (∀ files : List RawFile, ∀ d₁ d₂ : Document, ∀ a : String,
      (∀ f ∈ files, validateFM f.fm = []) →
      d₁ ∈ files.map docOf → d₂ ∈ files.map docOf → d₁ ≠ d₂ →
      a ∈ d₁.aliases → a ∈ d₂.aliases →
      ∃ a₀ s₁ s₂, load files = .error (.conflict (.dupAlias a₀ s₁ s₂)) ∧
        ∃ e₁ e₂, [e₁, e₂].Sublist (files.map docOf) ∧ s₁ = e₁.slug ∧ s₂ = e₂.slug ∧
          a₀ ∈ e₁.aliases ∧ a₀ ∈ e₂.aliases)
    ∧ (∀ files idx, load files = .ok idx →
        ∀ a s₁ s₂, (a, s₁) ∈ idx.aliasTable → (a, s₂) ∈ idx.aliasTable → s₁ = s₂) := by
  constructor
  · intro files d₁ d₂ a hval h₁ h₂ hne ha₁ ha₂
    have hsome : (findAliasConflict (files.map docOf)).isSome := by
      rcases pair_sublist h₁ h₂ hne with hs | hs
      · exact findAliasConflict_isSome hs ha₁ ha₂
      · exact findAliasConflict_isSome hs ha₂ ha₁
    obtain ⟨c, hc⟩ := Option.isSome_iff_exists.mp hsome
    obtain ⟨a₀, s₁, s₂⟩ := c
    obtain ⟨e₁, e₂, hsub, he₁, he₂, hae₁, hae₂⟩ := findAliasConflict_eq_some hc
    refine ⟨a₀, s₁, s₂, ?_, e₁, e₂, hsub, he₁, he₂, hae₁, hae₂⟩
    unfold load
    rw [if_pos (offendingFiles_isEmpty_iff.mpr hval), hc]
  · intro files idx h a s₁ s₂ hm₁ hm₂
    obtain ⟨_, hal, _, hidx⟩ := load_ok_elim h
    subst hidx
    simp only [buildIndex] at hm₁ hm₂
    obtain ⟨e₁, he₁, hx₁⟩ := List.mem_flatMap.mp hm₁
    obtain ⟨x₁, hxa₁, hpair₁⟩ := List.mem_map.mp hx₁
    obtain ⟨hxa₁e, hs₁e⟩ := Prod.mk.injEq .. ▸ hpair₁
    obtain ⟨e₂, he₂, hx₂⟩ := List.mem_flatMap.mp hm₂
    obtain ⟨x₂, hxa₂, hpair₂⟩ := List.mem_map.mp hx₂
    obtain ⟨hxa₂e, hs₂e⟩ := Prod.mk.injEq .. ▸ hpair₂
    rw [← hs₁e, ← hs₂e]
    have haa₁ : a ∈ e₁.aliases := hxa₁e ▸ hxa₁
    have haa₂ : a ∈ e₂.aliases := hxa₂e ▸ hxa₂
    by_cases he : e₁ = e₂
    · rw [he]
    · have hpw : (publishedDocs (files.map docOf)).Pairwise NoShare := by
        have h₀ : (files.map docOf).Pairwise NoShare :=
          findAliasConflict_eq_none_iff.mp hal
        exact (List.Perm.pairwise_iff (fun h => noShare_symm h)
          (publishedDocs_perm _)).mpr (h₀.filter _)
      rcases pair_sublist he₁ he₂ he with hs | hs
      · have hp₂ := List.Pairwise.sublist hs hpw
        exact absurd haa₂ ((List.pairwise_cons.mp hp₂).1 e₂
          (List.mem_cons_self e₂ []) a haa₁)
      · have hp₂ := List.Pairwise.sublist hs hpw
        exact absurd haa₁ ((List.pairwise_cons.mp hp₂).1 e₁
          (List.mem_cons_self e₁ []) a haa₂)

/-- Witness for C2: the two concrete files claiming `old/path.html` make
`load` fail with the corresponding ConflictError. -/
theorem claim_C2_witness :
    ∃ a₀ s₁ s₂, load conflictFiles = .error (.conflict (.dupAlias a₀ s₁ s₂)) ∧
      ∃ e₁ e₂, [e₁, e₂].Sublist (conflictFiles.map docOf) ∧ s₁ = e₁.slug ∧
        s₂ = e₂.slug ∧ a₀ ∈ e₁.aliases ∧ a₀ ∈ e₂.aliases :=
  claim_C2.1 conflictFiles (docOf aliasFileX) (docOf aliasFileY) "old/path.html"
    (by decide) (by decide) (by decide) (by decide) (by decide) (by decide)

/-- C3: the default listing and every taxonomy entry of a successful `load`
are sorted by the document order (date descending, ties broken by slug
ascending), which is total; and on the spec's concrete example the listing
order is `b, a, c`. -/
theorem claim_C3 :
    (∀ files idx, load files = .ok idx →
      idx.listing.Sorted DocBefore ∧ ∀ e ∈ idx.taxonomy, e.2.Sorted DocBefore)
    ∧ (∀ a b : Document, DocBefore a b ∨ DocBefore b a)
    ∧ (∀ a b : Document, DocBefore a b ↔
        (DateBefore b.date a.date ∨ (a.date = b.date ∧ StrLe a.slug b.slug)))
    ∧ (load orderingFiles).map (fun idx => idx.listing.map (fun d => d.slug)) =
        .ok ["b", "a", "c"] := by
  refine ⟨?_, docBefore_total, docBefore_iff, rfl⟩
  intro files idx h
  obtain ⟨_, _, _, hidx⟩ := load_ok_elim h
  subst hidx
  constructor
  · exact publishedDocs_sorted _
  · intro e he
    simp only [buildIndex] at he
    obtain ⟨t, _, rfl⟩ := List.mem_map.mp he
    exact List.Pairwise.filter _ (publishedDocs_sorted _)

/-- Witness for C3: the listing and taxonomy of the concrete ordering example
are sorted. -/
theorem claim_C3_witness :
    orderingIndex.listing.Sorted DocBefore ∧
      ∀ e ∈ orderingIndex.taxonomy, e.2.Sorted DocBefore :=
  claim_C3.1 orderingFiles orderingIndex rfl

/-- C4: when any file fails validation, `load` fails with the aggregated
validation report, that report contains every offending file (no
short-circuit at the first failure), the validation status of every file is
computed, and a successful run implies every file was valid (no partial
output on a fatal failure). -/
theorem claim_C4 :
    (∀ files : List RawFile, (∃ f ∈ files, validateFM f.fm ≠ []) →
      load files = .error (.validation (offendingFiles files)) ∧
      (∀ f ∈ files, validateFM f.fm ≠ [] →
        (f.path, validateFM f.fm) ∈ offendingFiles files) ∧
      (∀ f ∈ files, (f.path, validateFM f.fm) ∈ validationReport files))
    ∧ (∀ files idx, load files = .ok idx → ∀ f ∈ files, validateFM f.fm = []) := by
  constructor
  · intro files hbad
    obtain ⟨f₀, hf₀, hbad₀⟩ := hbad
    have hne : ¬(offendingFiles files).isEmpty = true := by
      rw [offendingFiles_isEmpty_iff]
      intro h
      exact hbad₀ (h f₀ hf₀)
    refine ⟨?_, ?_, ?_⟩
    · unfold load
      rw [if_neg hne]
    · intro f hf hbadf
      have hfe : (validateFM f.fm).isEmpty = false := by
        cases hv : validateFM f.fm with
        | nil => exact absurd hv hbadf
        | cons e es => rfl
      refine List.mem_filter.mpr ⟨List.mem_map.mpr ⟨f, hf, rfl⟩, ?_⟩
      simp [hfe]
    · intro f hf
      exact List.mem_map.mpr ⟨f, hf, rfl⟩
  · intro files idx h
    exact (load_ok_elim h).1

/-- Witness for C4: on the concrete mixed set (one valid, one invalid file)
`load` fails with the full aggregated report. -/
theorem claim_C4_witness :
    load mixedFiles = .error (.validation (offendingFiles mixedFiles)) ∧
      (∀ f ∈ mixedFiles, validateFM f.fm ≠ [] →
        (f.path, validateFM f.fm) ∈ offendingFiles mixedFiles) ∧
      (∀ f ∈ mixedFiles, (f.path, validateFM f.fm) ∈ validationReport mixedFiles) :=
  claim_C4.1 mixedFiles ⟨rawScreenPost, by decide, by decide⟩

/-- C5: `resolveTheme` succeeds exactly when every typography-override key is
a recognized element selector, and any configuration containing an
unrecognized selector key fails with a ConfigError naming an offending key of
the configuration. -/
theorem claim_C5 :
    (∀ cfg : ThemeConfig, (resolveTheme cfg).isOk = true ↔
      ∀ kv ∈ cfg.typographyOverrides, kv.1 ∈ recognizedSelectors)
    ∧ (∀ cfg : ThemeConfig, ∀ kv ∈ cfg.typographyOverrides,
        kv.1 ∉ recognizedSelectors →
        ∃ k, resolveTheme cfg = .error (.unknownSelector k) ∧
          k ∉ recognizedSelectors ∧ ∃ decls, (k, decls) ∈ cfg.typographyOverrides) :=
  ⟨fun _ => resolveTheme_isOk_iff, fun _ _ hm hk => resolveTheme_error hm hk⟩

/-- Witness for C5: the configuration with selector key `h7` fails with a
ConfigError naming an unrecognized key of that configuration. -/
theorem claim_C5_witness :
    ∃ k, resolveTheme h7Config = .error (.unknownSelector k) ∧
      k ∉ recognizedSelectors ∧ ∃ decls, (k, decls) ∈ h7Config.typographyOverrides :=
  claim_C5.2 h7Config ("h7", [("color", "#000")]) (by decide) (by decide)

/-- C6: `scan` returns a duplicate-free token list, is invariant under any
reordering of the scanned files, and `emit` is a pure function, so the
composed pipeline is reproducible on identical inputs. -/
theorem claim_C6 :
    (∀ (files : List SourceFile) (globs : List String), (scan files globs).Nodup)
    ∧ (∀ (files₁ files₂ : List SourceFile) (globs : List String),
        files₁.Perm files₂ → scan files₁ globs = scan files₂ globs)
    ∧ (∀ (files : List SourceFile) (globs : List String) (rules : StyleRules),
        emit (scan files globs) rules = emit (scan files globs) rules) :=
  ⟨fun _ _ => List.nodup_dedup _, fun _ _ _ hp => scan_perm_eq hp, fun _ _ _ => rfl⟩

/-- Witness for C6: scanning the two concrete source files in either order
yields the same token set. -/
theorem claim_C6_witness :
    scan [srcFileA, srcFileB] contentGlobs = scan [srcFileB, srcFileA] contentGlobs :=
  claim_C6.2.1 [srcFileA, srcFileB] [srcFileB, srcFileA] contentGlobs
    (List.Perm.swap srcFileB srcFileA [])

/-- C7: `load` is a deterministic function of the input tree: re-running it
on the same list is the identity, and a successful run is invariant under
any reordering of file discovery. -/
theorem claim_C7 :
    (∀ files : List RawFile, load files = load files)
    ∧ (∀ (files₁ files₂ : List RawFile) (idx : Index), files₁.Perm files₂ →
        load files₁ = .ok idx → load files₂ = .ok idx) :=
  ⟨fun _ => rfl, fun _ _ _ hp h => load_perm hp h⟩

/-- Witness for C7: loading the two concrete valid files in swapped order
yields the identical index. -/
theorem claim_C7_witness :
    load [permFileQ, permFileP] = .ok (buildIndex ([permFileP, permFileQ].map docOf)) :=
  claim_C7.2 [permFileP, permFileQ] [permFileQ, permFileP]
    (buildIndex ([permFileP, permFileQ].map docOf))
    (List.Perm.swap permFileQ permFileP []) rfl

/-- C8: a draft document appears neither in the listing nor in any taxonomy
entry of a successful load, yet validation ignores the draft flag, so a
draft file with a missing required field still makes `load` fail with a
report containing it. -/
theorem claim_C8 :
    (∀ files idx, load files = .ok idx → ∀ d ∈ files.map docOf, d.draft = true →
      d ∉ idx.listing ∧ ∀ e ∈ idx.taxonomy, d ∉ e.2)
    ∧ (∀ files, ∀ f ∈ files, validateFM f.fm ≠ [] →
        load files = .error (.validation (offendingFiles files)) ∧
        (f.path, validateFM f.fm) ∈ offendingFiles files) := by
  constructor
  · intro files idx h d hd hdraft
    obtain ⟨_, _, _, hidx⟩ := load_ok_elim h
    subst hidx
    have hnotpub : d ∉ publishedDocs (files.map docOf) := by
      intro hmem
      have hfalse := (mem_publishedDocs.mp hmem).2
      rw [hdraft] at hfalse
      cases hfalse
    constructor
    · exact hnotpub
    · intro e he hdin
      simp only [buildIndex] at he
      obtain ⟨t, _, rfl⟩ := List.mem_map.mp he
      exact hnotpub (List.mem_of_mem_filter hdin)
  · intro files f hf hbad
    have hne : ¬(offendingFiles files).isEmpty = true := by
      rw [offendingFiles_isEmpty_iff]
      intro h
      exact hbad (h f hf)
    constructor
    · unfold load
      rw [if_neg hne]
    · have hfe : (validateFM f.fm).isEmpty = false := by
        cases hv : validateFM f.fm with
        | nil => exact absurd hv hbad
        | cons e es => rfl
      refine List.mem_filter.mpr ⟨List.mem_map.mpr ⟨f, hf, rfl⟩, ?_⟩
      simp [hfe]

/-- Witness for C8: the concrete draft document is absent from the listing
and the taxonomy of the mixed set, and the draft missing its description
still makes `load` fail. -/
theorem claim_C8_witness :
    (docOf draftFile ∉ draftMixIndex.listing ∧
      ∀ e ∈ draftMixIndex.taxonomy, docOf draftFile ∉ e.2) ∧
    (load [badDraftFile] = .error (.validation (offendingFiles [badDraftFile])) ∧
      (badDraftFile.path, validateFM badDraftFile.fm) ∈ offendingFiles [badDraftFile]) :=
  ⟨claim_C8.1 draftMixFiles draftMixIndex rfl (docOf draftFile) (by decide) (by decide),
   claim_C8.2 [badDraftFile] badDraftFile (by decide) (by decide)⟩

theorem globSegs_literal_head_false {seg : String} (hseg : ¬seg = "**")
    (hsm : segMatch seg.toList "_posts".toList = false)
    (ps rest : List String) :
    globSegs (seg :: ps) ("_posts" :: rest) = false := by
  simp only [globSegs, hseg, if_false, Bool.and_eq_false_imp]
  intro hc
  exact absurd hc (by simpa using hsm)

/-- C9: the configured content globs of src/tailwind.config.js match no path
under the `_posts` directory, so a token occurring only in documents under
`_posts` never enters the scanned token set. -/
theorem claim_C9 :
    (∀ path : String, (splitOnChar '/' path).head? = some "_posts" →
      (contentGlobs.any fun g => globMatch g path) = false)
    ∧ (∀ (files : List SourceFile) (t : String),
        (∀ f ∈ files, t ∈ tokensOf f.content →
          (splitOnChar '/' f.path).head? = some "_posts") →
        t ∉ scan files contentGlobs) := by
  have hpath : ∀ path : String, (splitOnChar '/' path).head? = some "_posts" →
      (contentGlobs.any fun g => globMatch g path) = false := by
    intro path h
    cases e : splitOnChar '/' path with
    | nil => rw [e] at h; cases h
    | cons s rest =>
      rw [e] at h
      have hs : s = "_posts" := by simpa using h
      subst hs
      have e₁ : globMatch "./templates/**/*.html" path = false := by
        have hred : splitOnChar '/' (stripDotSlash "./templates/**/*.html") =
            ["templates", "**", "*.html"] := by decide
        unfold globMatch
        rw [e, hred]
        exact globSegs_literal_head_false (by decide) (by decide) ["**", "*.html"] rest
      have e₂ : globMatch "./content/**/*.md" path = false := by
        have hred : splitOnChar '/' (stripDotSlash "./content/**/*.md") =
            ["content", "**", "*.md"] := by decide
        unfold globMatch
        rw [e, hred]
        exact globSegs_literal_head_false (by decide) (by decide) ["**", "*.md"] rest
      have e₃ : globMatch "./static/icons/**/*.svg" path = false := by
        have hred : splitOnChar '/' (stripDotSlash "./static/icons/**/*.svg") =
            ["static", "icons", "**", "*.svg"] := by decide
        unfold globMatch
        rw [e, hred]
        exact globSegs_literal_head_false (by decide) (by decide) ["icons", "**", "*.svg"] rest
      simp [contentGlobs, e₁, e₂, e₃]
  refine ⟨hpath, ?_⟩
  intro files t hall ht
  obtain ⟨f, hf, hmatch, htok⟩ := mem_scan.mp ht
  have hfalse := hpath f.path (hall f hf htok)
  rw [hfalse] at hmatch
  cases hmatch

/-- Witness for C9: the path of the legacy screen post matches no content
glob, and its token `multiplexer` is not scanned. -/
theorem claim_C9_witness :
    ((contentGlobs.any fun g =>
      globMatch g "_posts/2015-11-30-screen-terminal-multiplexer.md") = false)
    ∧ "multiplexer" ∉ scan [postsOnlyFile] contentGlobs :=
  ⟨claim_C9.1 "_posts/2015-11-30-screen-terminal-multiplexer.md" (by decide),
   claim_C9.2 [postsOnlyFile] "multiplexer" (by decide)⟩

/-- C10: resolving the embedded theme configuration succeeds, and the
resolved typography overrides set the `content` declaration of both
`code::before` and `code::after` to the CSS empty-string literal, so inline
code is rendered without surrounding marker characters. -/
theorem claim_C10 :
    ∃ rules, resolveTheme siteConfig = .ok rules ∧
      rules.overrides.lookup "code::before" = some [("content", cssEmptyString)] ∧
      rules.overrides.lookup "code::after" = some [("content", cssEmptyString)] ∧
      cssEmptyString = "\"\"" :=
  ⟨⟨siteConfig.fontFamily, siteConfig.typographyOverrides⟩, rfl,
    by decide, by decide, rfl⟩

end Blog
